import Mathlib

/-!
Shallow embedding of the expense batch-upload engine of `src/main.py`
(splitwise-tools-flask): the share calculator (`getShareOwed`), payer shares,
the rounding reconciler (`AssignRoundingDiff`, here `assignRoundingDiff`),
the member-resolution loop of `batch_upload_process`, and its commit gate.
Monetary values are modelled as exact rationals; Python's two-decimal `round`
is modelled as round half to even (`rhe`, `round2`).  The batch validator
`describe_errors` is implemented in `services/helpers/expense_utils.py`,
which is not part of the provided source; it is modelled from the
specification (see `rowErrorCount`).
-/

namespace SplitwiseTools

/-- Round half to even to the nearest integer (Python `round(x)` semantics
on exact values). -/
def rhe (x : ℚ) : ℤ :=
  if x - ⌊x⌋ < 1/2 then ⌊x⌋
  else if 1/2 < x - ⌊x⌋ then ⌊x⌋ + 1
  else if Even ⌊x⌋ then ⌊x⌋ else ⌊x⌋ + 1

/-- Python `round(x, 2)`: round to two decimal places, half to even. -/
def round2 (x : ℚ) : ℚ := (rhe (100 * x) : ℚ) / 100

/-- One row of the Members sheet: columns `Name` and `ID`. -/
structure Member where
  name : String
  id : ℤ
deriving DecidableEq, Inhabited

/-- One row of the Expenses sheet after parsing.  `cells m` is the value of
the member column `_m` in this row (`none` models an empty cell / NaN). -/
structure ExpenseRow where
  description : String
  date : String
  amount : ℚ
  currency : String
  paidBy : String
  allEqual : Bool
  splitType : String
  cells : String → Option ℚ
deriving Inhabited

/-- `getShareOwed` of `src/main.py` (lines 174-189): share owed for one
expense row and one member column, by split policy.  `groupSize` is
`len(group.members)`; `mns` is the stripped list `cols_member_names`. -/
def getShareOwed (groupSize : ℕ) (mns : List String) (row : ExpenseRow)
    (memberName : String) : ℚ :=
  match row.cells memberName with
  | none => 0
  | some v =>
    if row.allEqual then round2 (row.amount / (groupSize : ℚ))
    else if row.splitType = "share" then round2 (v / 100 * row.amount)
    else if row.splitType = "amount" then v
    else if row.splitType = "equal" then
      round2 (row.amount / ((mns.filter (fun n => (row.cells n).isSome)).length : ℚ))
    else 0

/-- The `share_paid` columns of `src/main.py` (line 193):
`np.where(expenses_df["Paid by"] == col_name[1:], expenses_df['Amount'], 0)`. -/
def getSharePaid (row : ExpenseRow) (memberName : String) : ℚ :=
  if row.paidBy = memberName then row.amount else 0

/-- An expense row after the share calculator has populated the
`_share_paid` and `_share_owed` columns. -/
structure ComputedRow where
  description : String
  date : String
  amount : ℚ
  currency : String
  paid : String → ℚ
  owed : String → ℚ
deriving Inhabited

/-- One upload batch: the Members sheet, the stripped member-column names,
the Splitwise group size and the Expenses sheet. -/
structure Batch where
  members : List Member
  memberNames : List String
  groupSize : ℕ
  rows : List ExpenseRow
deriving Inhabited

/-- Populate the share columns of one row (lines 191-196 of `src/main.py`). -/
def computeRow (b : Batch) (row : ExpenseRow) : ComputedRow :=
  { description := row.description
    date := row.date
    amount := row.amount
    currency := row.currency
    paid := fun m => getSharePaid row m
    owed := fun m => getShareOwed b.groupSize b.memberNames row m }

/-- `share_owed_columns` of `AssignRoundingDiff` (line 203): the member
columns whose share owed is strictly positive in this row, in column
order. -/
def shareOwedCols (r : ComputedRow) : List String → List String
  | [] => []
  | m :: rest =>
    if 0 < r.owed m then m :: shareOwedCols r rest else shareOwedCols r rest

/-- `diff` of `AssignRoundingDiff` (lines 204-205): sum of the positive
share-owed entries minus the amount. -/
def rdDiff (mns : List String) (r : ComputedRow) : ℚ :=
  ((shareOwedCols r mns).map r.owed).sum - r.amount

/-- `AssignRoundingDiff` of `src/main.py` (lines 199-210).  The random draw
of `random.choice` is modelled by the `choice` parameter reduced modulo the
candidate count; `none` models the `IndexError` that `random.choice` raises
on an empty candidate list. -/
def assignRoundingDiff (mns : List String) (r : ComputedRow) (choice : ℕ) :
    Option ComputedRow :=
  if 0 < |rdDiff mns r| ∧ |rdDiff mns r| < 2/100 then
    match shareOwedCols r mns with
    | [] => none
    | c :: cs =>
      some { r with owed := fun m =>
              if m = (c :: cs).getD (choice % (c :: cs).length) c then
                r.owed m - round2 (rdDiff mns r)
              else r.owed m }
  else some r

/-- The member-resolution lookup of `src/main.py` (lines 156-163):
`members_df[members_df['Name'] == member_name[1:]]` followed by
`member_info['ID'].values[0]`, i.e. the `ID` of the FIRST Members row whose
`Name` matches; `none` models the `IndexError` raised when there is no
matching row. -/
def resolveMember : List Member → String → Option ℤ
  | [], _ => none
  | m :: rest, name =>
    if m.name = name then some m.id else resolveMember rest name

/-- The `members_in_cols` list built by the loop at lines 155-163 of
`src/main.py`: one `(name, id)` pair per member column, failing when some
column has no matching Members row. -/
def members_in_cols (members : List Member) : List String → Option (List (String × ℤ))
  | [] => some []
  | n :: rest =>
    match resolveMember members n, members_in_cols members rest with
    | some i, some l => some ((n, i) :: l)
    | _, _ => none

/-- Whether the split type of a row is one of the policies recognized by
`getShareOwed` (the branches that do not fall through to the silent 0). -/
def splitTypeRecognized (row : ExpenseRow) : Prop :=
  row.allEqual = true ∨ row.splitType = "share" ∨ row.splitType = "amount" ∨
    row.splitType = "equal"

instance (row : ExpenseRow) : Decidable (splitTypeRecognized row) := by
  unfold splitTypeRecognized
  infer_instance

/-- Modelled from the spec: the Batch Validator `describe_errors` is
implemented in `services/helpers/expense_utils.py`, which is missing from
the provided source.  Following spec section 4.5, one error is counted per
violated rule: positive amount; recognized split type; post-reconciliation
owed sum within 0.02 of the amount; payer known; every member column known;
non-empty currency. -/
def rowErrorCount (b : Batch) (row : ExpenseRow) (cr : ComputedRow) : ℕ :=
  (if row.amount ≤ 0 then 1 else 0) +
  (if splitTypeRecognized row then 0 else 1) +
  (if 2/100 ≤ |(b.memberNames.map cr.owed).sum - row.amount| then 1 else 0) +
  (if row.paidBy ∈ b.members.map Member.name then 0 else 1) +
  (if ∀ n ∈ b.memberNames, n ∈ b.members.map Member.name then 0 else 1) +
  (if row.currency = "" then 1 else 0)

/-- Share computation plus reconciliation for every row of the batch, in
order (lines 191-212 of `src/main.py`); `rng i` is the random draw used for
row `i`.  `none` models an uncaught exception in some row. -/
def processRows (b : Batch) (rng : ℕ → ℕ) : List ExpenseRow → ℕ → Option (List ComputedRow)
  | [], _ => some []
  | row :: rest, i =>
    match assignRoundingDiff b.memberNames (computeRow b row) (rng i),
          processRows b rng rest (i + 1) with
    | some cr, some crs => some (cr :: crs)
    | _, _ => none

/-- Total error count of the batch: the sum of the per-row error counts of
the (spec-modelled) validator. -/
def batchErrorCount (b : Batch) : List ExpenseRow → List ComputedRow → ℕ
  | row :: rest, cr :: crs => rowErrorCount b row cr + batchErrorCount b rest crs
  | _, _ => 0

/-- The outcome of `batch_upload_process` that the claims are about:
the processed expenses, the validator's error count, the `file_valid` flag
passed to the template, whether an upload record was created, and which
expenses were persisted. -/
structure Report where
  expenses : List ComputedRow
  errorCount : ℕ
  fileValid : Bool
  uploadCreated : Bool
  committed : List ComputedRow
deriving Inhabited

/-- `batch_upload_process` of `src/main.py` (lines 133-239), restricted to
the allocation engine: resolve the member columns, compute and reconcile
every row, count errors with the (spec-modelled) validator, and commit the
batch (create the upload record and every expense) exactly when the error
count is zero (lines 219-225); `file_valid` is `error_count == 0`
(line 235). -/
def batch_upload_process (b : Batch) (rng : ℕ → ℕ) : Option Report :=
  match members_in_cols b.members b.memberNames with
  | none => none
  | some _ =>
    match processRows b rng b.rows 0 with
    | none => none
    | some crs =>
      some { expenses := crs
             errorCount := batchErrorCount b b.rows crs
             fileValid := decide (batchErrorCount b b.rows crs = 0)
             uploadCreated := decide (batchErrorCount b b.rows crs = 0)
             committed := if batchErrorCount b b.rows crs = 0 then crs else [] }

/-! Concrete data used by counterexamples and witnesses. -/

/-- A random stream that always draws index 0. -/
def rng0 : ℕ → ℕ := fun _ => 0

/-- Members sheet shared by the example batches. -/
def exMembers : List Member := [⟨"A", 1⟩, ⟨"B", 2⟩, ⟨"C", 3⟩]

/-- A benign fixed-amount expense: amount 10 paid by A, split A=4, B=6. -/
def rowW : ExpenseRow :=
  { description := "taxi", date := "2024-01-01", amount := 10, currency := "EUR"
    paidBy := "A", allEqual := false, splitType := "amount"
    cells := fun m => if m = "A" then some 4 else if m = "B" then some 6 else none }

/-- Batch holding only `rowW`. -/
def bW : Batch :=
  { members := exMembers, memberNames := ["A", "B"], groupSize := 2, rows := [rowW] }

/-- Fixed-amount expense with a negative sub-cent cell for A: amount 10,
cells A = -0.015, B = 10. -/
def row1 : ExpenseRow :=
  { description := "dinner", date := "2024-01-02", amount := 10, currency := "EUR"
    paidBy := "A", allEqual := false, splitType := "amount"
    cells := fun m => if m = "A" then some (-3/200) else if m = "B" then some 10 else none }

/-- Batch holding only `row1`. -/
def b1 : Batch :=
  { members := exMembers, memberNames := ["A", "B"], groupSize := 2, rows := [row1] }

/-- Expense with an unrecognized split type "bogus" and a present cell. -/
def rowBogus : ExpenseRow :=
  { description := "bar", date := "2024-01-03", amount := 10, currency := "EUR"
    paidBy := "A", allEqual := false, splitType := "bogus"
    cells := fun m => if m = "A" then some 50 else none }

/-- Batch holding only `rowBogus`. -/
def bBogus : Batch :=
  { members := exMembers, memberNames := ["A"], groupSize := 1, rows := [rowBogus] }

/-- All-equal expense of amount 30 where member B's cell is empty. -/
def row3 : ExpenseRow :=
  { description := "hotel", date := "2024-01-04", amount := 30, currency := "EUR"
    paidBy := "A", allEqual := true, splitType := ""
    cells := fun m => if m = "A" then some 1 else none }

/-- Fixed-amount expense with a negative cell for A: amount 9.99,
cells A = -0.01, B = 10. -/
def row4 : ExpenseRow :=
  { description := "wine", date := "2024-01-05", amount := 999/100, currency := "EUR"
    paidBy := "A", allEqual := false, splitType := "amount"
    cells := fun m => if m = "A" then some (-1/100) else if m = "B" then some 10 else none }

/-- Batch holding only `row4`. -/
def b4 : Batch :=
  { members := exMembers, memberNames := ["A", "B"], groupSize := 2, rows := [row4] }

/-- Fixed-amount expense paid by C, who has no member column: amount 5,
cells A = 2.5, B = 2.5. -/
def row5 : ExpenseRow :=
  { description := "bread", date := "2024-01-06", amount := 5, currency := "EUR"
    paidBy := "C", allEqual := false, splitType := "amount"
    cells := fun m => if m = "A" then some (5/2) else if m = "B" then some (5/2) else none }

/-- Batch holding only `row5`. -/
def b5 : Batch :=
  { members := exMembers, memberNames := ["A", "B"], groupSize := 3, rows := [row5] }

/-- Members sheet with a duplicated name. -/
def dupMembers : List Member := [⟨"Alice", 1⟩, ⟨"Alice", 7⟩]

/-- Percentage-split expense: amount 50, cells A = 60, B = 40. -/
def rowShare : ExpenseRow :=
  { description := "museum", date := "2024-01-08", amount := 50, currency := "EUR"
    paidBy := "A", allEqual := false, splitType := "share"
    cells := fun m => if m = "A" then some 60 else if m = "B" then some 40 else none }

/-- Equal-split expense: amount 10, members A and B listed, C's cell empty. -/
def rowEqual : ExpenseRow :=
  { description := "coffee", date := "2024-01-09", amount := 10, currency := "EUR"
    paidBy := "A", allEqual := false, splitType := "equal"
    cells := fun m => if m = "A" then some 1 else if m = "B" then some 1 else none }

/-- Fixed-amount expense splitting 100 as 33.33 + 33.33 + 33.33 (residual
-0.01 against the amount). -/
def row10 : ExpenseRow :=
  { description := "rent", date := "2024-01-07", amount := 100, currency := "EUR"
    paidBy := "A", allEqual := false, splitType := "amount"
    cells := fun m =>
      if m = "A" then some (3333/100)
      else if m = "B" then some (3333/100)
      else if m = "C" then some (3333/100)
      else none }

/-- Batch holding only `row10`. -/
def b10 : Batch :=
  { members := exMembers, memberNames := ["A", "B", "C"], groupSize := 3, rows := [row10] }

/-- Computed (pre-reconciliation) row of `rowW` in `bW`. -/
def crW : ComputedRow := computeRow bW rowW

/-- Computed row of `row1` in `b1`. -/
def cr1 : ComputedRow := computeRow b1 row1

/-- Computed row of `rowBogus` in `bBogus`. -/
def crBogus : ComputedRow := computeRow bBogus rowBogus

/-- Computed row of `row4` in `b4`. -/
def cr4 : ComputedRow := computeRow b4 row4

/-- Computed row of `row5` in `b5`. -/
def cr5 : ComputedRow := computeRow b5 row5

/-- Computed row of `row10` in `b10`. -/
def cr10 : ComputedRow := computeRow b10 row10

/-- Reconciled row of `row10` under draw 0. -/
def r10s : ComputedRow := (assignRoundingDiff b10.memberNames cr10 0).getD default

/-! Basic lemmas about the rounding function. -/

/-- Rounding half to even moves a value by at most 1/2. -/
theorem abs_rhe_sub_le (x : ℚ) : |(rhe x : ℚ) - x| ≤ 1/2 := by
  have h1 : (⌊x⌋ : ℚ) ≤ x := Int.floor_le x
  have h2 : x < ⌊x⌋ + 1 := Int.lt_floor_add_one x
  unfold rhe
  split_ifs with ha hb hc
  · rw [abs_le]
    constructor <;> linarith
  · push_cast
    rw [abs_le]
    constructor <;> linarith
  · rw [abs_le]
    constructor <;> linarith
  · push_cast
    rw [abs_le]
    constructor <;> linarith

/-- Rounding to two decimals moves a value by at most 1/200. -/
theorem abs_round2_sub_le (x : ℚ) : |round2 x - x| ≤ 1/200 := by
  have h := abs_rhe_sub_le (100 * x)
  have hx : round2 x - x = ((rhe (100 * x) : ℚ) - 100 * x) / 100 := by
    unfold round2
    ring
  rw [hx, abs_div, abs_of_pos (by norm_num : (0:ℚ) < 100)]
  linarith

/-! Structural lemmas about the positive-share columns and the reconciler. -/

/-- When no share is negative, summing over the positive-share columns is
the same as summing over all member columns. -/
theorem sum_shareOwedCols (r : ComputedRow) (mns : List String)
    (h : ∀ m ∈ mns, 0 ≤ r.owed m) :
    ((shareOwedCols r mns).map r.owed).sum = (mns.map r.owed).sum := by
  induction mns with
  | nil => rfl
  | cons a l ih =>
    have ha := h a (List.mem_cons_self a l)
    have hl : ∀ m ∈ l, 0 ≤ r.owed m := fun m hm => h m (List.mem_cons_of_mem a hm)
    by_cases hpos : 0 < r.owed a
    · simp only [shareOwedCols]
      rw [if_pos hpos, List.map_cons, List.map_cons, List.sum_cons, List.sum_cons, ih hl]
    · have hz : r.owed a = 0 := le_antisymm (not_lt.mp hpos) ha
      simp only [shareOwedCols]
      rw [if_neg hpos, ih hl, List.map_cons, List.sum_cons, hz, zero_add]

/-- Membership in the positive-share columns. -/
theorem mem_shareOwedCols (r : ComputedRow) (mns : List String) (m : String)
    (hm : m ∈ shareOwedCols r mns) : m ∈ mns ∧ 0 < r.owed m := by
  induction mns with
  | nil => cases hm
  | cons a l ih =>
    by_cases hpos : 0 < r.owed a
    · rw [shareOwedCols, if_pos hpos] at hm
      rcases List.mem_cons.mp hm with rfl | hm2
      · exact ⟨List.mem_cons_self _ _, hpos⟩
      · rcases ih hm2 with ⟨h1, h2⟩
        exact ⟨List.mem_cons_of_mem _ h1, h2⟩
    · rw [shareOwedCols, if_neg hpos] at hm
      rcases ih hm with ⟨h1, h2⟩
      exact ⟨List.mem_cons_of_mem a h1, h2⟩

/-- Subtracting `c` from the entry of one listed member lowers the sum by `c`. -/
theorem sum_map_update (f : String → ℚ) (c : ℚ) (p : String) :
    ∀ l : List String, l.Nodup → p ∈ l →
      (l.map (fun m => if m = p then f m - c else f m)).sum = (l.map f).sum - c := by
  intro l
  induction l with
  | nil => intro _ hp; cases hp
  | cons a l ih =>
    intro hnd hp
    rcases List.nodup_cons.mp hnd with ⟨hal, hln⟩
    rcases List.mem_cons.mp hp with rfl | hpl
    · have hmap : l.map (fun m => if m = p then f m - c else f m) = l.map f :=
        List.map_congr_left fun m hm => if_neg fun (he : m = p) => hal (he ▸ hm)
      simp [hmap]
      ring
    · have hap : a ≠ p := fun he => hal (he ▸ hpl)
      simp only [List.map_cons, List.sum_cons, if_neg hap, ih hln hpl]
      ring

/-- `List.getD` at an index below the length is a member of the list. -/
theorem getD_mem_of_lt (l : List String) (d : String) (n : ℕ) (h : n < l.length) :
    l.getD n d ∈ l := by
  induction l generalizing n with
  | nil => cases h
  | cons a l ih =>
    cases n with
    | zero => exact List.mem_cons_self a l
    | succ k =>
      have hk : k < l.length := Nat.lt_of_succ_lt_succ h
      exact List.mem_cons_of_mem a (ih k hk)

/-- `List.getD` at the index of a member recovers that member. -/
theorem getD_indexOf (l : List String) (d : String) (p : String) (hp : p ∈ l) :
    l.getD (l.indexOf p) d = p := by
  induction l with
  | nil => cases hp
  | cons a l ih =>
    by_cases hap : a = p
    · subst hap
      simp [List.indexOf_cons_self]
    · have hpl : p ∈ l := by
        rcases List.mem_cons.mp hp with h | h
        · exact absurd h.symm hap
        · exact h
      rw [List.indexOf_cons_ne l hap]
      exact ih hpl

/-- The reconciler leaves the row unchanged when the difference is zero or
at least 0.02. -/
theorem assignRoundingDiff_eq_self (mns : List String) (r : ComputedRow) (choice : ℕ)
    (h : ¬(0 < |rdDiff mns r| ∧ |rdDiff mns r| < 2/100)) :
    assignRoundingDiff mns r choice = some r := by
  unfold assignRoundingDiff
  rw [if_neg h]

/-- The reconciler crashes when a correction is due but no column has a
positive share. -/
theorem assignRoundingDiff_none (mns : List String) (r : ComputedRow) (choice : ℕ)
    (h : 0 < |rdDiff mns r| ∧ |rdDiff mns r| < 2/100)
    (hcols : shareOwedCols r mns = []) :
    assignRoundingDiff mns r choice = none := by
  unfold assignRoundingDiff
  rw [if_pos h, hcols]

/-- The reconciler subtracts the rounded difference from the drawn column
when a correction is due. -/
theorem assignRoundingDiff_correct (mns : List String) (r : ComputedRow) (choice : ℕ)
    (h : 0 < |rdDiff mns r| ∧ |rdDiff mns r| < 2/100)
    (c : String) (cs : List String) (hcols : shareOwedCols r mns = c :: cs) :
    assignRoundingDiff mns r choice =
      some { r with owed := fun m =>
              if m = (c :: cs).getD (choice % (c :: cs).length) c then
                r.owed m - round2 (rdDiff mns r)
              else r.owed m } := by
  unfold assignRoundingDiff
  rw [if_pos h, hcols]

/-- `processRows` preserves the number of rows. -/
theorem processRows_length (b : Batch) (rng : ℕ → ℕ) :
    ∀ (rows : List ExpenseRow) (i : ℕ) (crs : List ComputedRow),
      processRows b rng rows i = some crs → crs.length = rows.length := by
  intro rows
  induction rows with
  | nil =>
    intro i crs h
    simp only [processRows, Option.some.injEq] at h
    rw [← h]
    rfl
  | cons row rest ih =>
    intro i crs h
    simp only [processRows] at h
    cases h1 : assignRoundingDiff b.memberNames (computeRow b row) (rng i) with
    | none => rw [h1] at h; cases h
    | some cr =>
      cases h2 : processRows b rng rest (i + 1) with
      | none => rw [h1, h2] at h; cases h
      | some crs2 =>
        rw [h1, h2] at h
        simp only [Option.some.injEq] at h
        rw [← h]
        simp [ih (i + 1) crs2 h2]

/-- A row with an unrecognized split type contributes at least one error to
the batch error count. -/
theorem batchErrorCount_ge_one (b : Batch) (row : ExpenseRow)
    (hbad : ¬splitTypeRecognized row) :
    ∀ (rows : List ExpenseRow) (crs : List ComputedRow),
      row ∈ rows → crs.length = rows.length → 1 ≤ batchErrorCount b rows crs := by
  intro rows
  induction rows with
  | nil => intro crs hmem; cases hmem
  | cons r rest ih =>
    intro crs hmem hlen
    cases crs with
    | nil => simp at hlen
    | cons cr crs2 =>
      have hlen2 : crs2.length = rest.length := by
        simpa using hlen
      rcases List.mem_cons.mp hmem with rfl | hmem2
      · have h1 : 1 ≤ rowErrorCount b row cr := by
          unfold rowErrorCount
          rw [if_neg hbad]
          omega
        have h2 : batchErrorCount b (row :: rest) (cr :: crs2) =
            rowErrorCount b row cr + batchErrorCount b rest crs2 := rfl
        omega
      · have h1 := ih crs2 hmem2 hlen2
        have h2 : batchErrorCount b (r :: rest) (cr :: crs2) =
            rowErrorCount b r cr + batchErrorCount b rest crs2 := rfl
        omega

/-! The share calculator. -/

/-- C3 (amended): with `splitAllEqual` true, a member column with a present
cell receives `round2 (amount / groupSize)`, and a member column with an
absent cell receives 0. -/
theorem C3_theorem (gs : ℕ) (mns : List String) (row : ExpenseRow) (m : String)
    (hae : row.allEqual = true) :
    getShareOwed gs mns row m =
      (row.cells m).elim 0 (fun _ => round2 (row.amount / (gs : ℚ))) := by
  unfold getShareOwed
  cases hc : row.cells m with
  | none => simp
  | some v => simp [hae]

/-- C3 witness: on `row3` (all-equal, amount 30, group of 3), member A's
present cell yields the group share 10. -/
theorem C3_witness : getShareOwed 3 ["A", "B"] row3 "A" = 10 := by
  have h := C3_theorem 3 ["A", "B"] row3 "A" rfl
  rw [h]
  norm_num [row3, round2, rhe]

/-- C3 counterexample: on `row3`, member B has no cell entry and receives 0,
not the group share `round2 (30 / 3) = 10` the claim promises to every
group member. -/
theorem C3_counterexample :
    getShareOwed 3 ["A", "B"] row3 "B" ≠ round2 (row3.amount / (3 : ℚ)) := by
  have hB : row3.cells "B" = none := by simp [row3]
  have h0 : getShareOwed 3 ["A", "B"] row3 "B" = 0 := by
    unfold getShareOwed
    rw [hB]
  rw [h0]
  norm_num [row3, round2, rhe]

/-- C8: with `splitAllEqual` false and split type "share", a member with a
present cell value `v` receives `round2 (v / 100 * amount)`. -/
theorem C8_theorem (gs : ℕ) (mns : List String) (row : ExpenseRow) (m : String) (v : ℚ)
    (hae : row.allEqual = false) (hst : row.splitType = "share")
    (hc : row.cells m = some v) :
    getShareOwed gs mns row m = round2 (v / 100 * row.amount) := by
  unfold getShareOwed
  rw [hc]
  simp [hae, hst]

/-- C8 witness: amount 50 with cells A = 60, B = 40 yields 30 and 20. -/
theorem C8_witness :
    getShareOwed 2 ["A", "B"] rowShare "A" = 30 ∧
      getShareOwed 2 ["A", "B"] rowShare "B" = 20 := by
  constructor
  · have h := C8_theorem 2 ["A", "B"] rowShare "A" 60 rfl rfl (by simp [rowShare])
    rw [h]
    norm_num [rowShare, round2, rhe]
  · have h := C8_theorem 2 ["A", "B"] rowShare "B" 40 rfl rfl (by simp [rowShare])
    rw [h]
    norm_num [rowShare, round2, rhe]

/-- C9: with `splitAllEqual` false and split type "equal", a member with a
present cell receives `round2 (amount / k)` where `k` counts the member
columns with present cells, and a member with an absent cell receives 0. -/
theorem C9_theorem (gs : ℕ) (mns : List String) (row : ExpenseRow) (m : String)
    (hae : row.allEqual = false) (hst : row.splitType = "equal") :
    getShareOwed gs mns row m =
      (row.cells m).elim 0 (fun _ =>
        round2 (row.amount /
          ((mns.filter (fun n => (row.cells n).isSome)).length : ℚ))) := by
  unfold getShareOwed
  cases hc : row.cells m with
  | none => simp
  | some v => simp [hae, hst]

/-- C9 witness: amount 10 split equally among the two listed members A and B
gives 5 each, while C with an empty cell gets 0. -/
theorem C9_witness :
    getShareOwed 3 ["A", "B", "C"] rowEqual "A" = 5 ∧
      getShareOwed 3 ["A", "B", "C"] rowEqual "C" = 0 := by
  have hk : (["A", "B", "C"].filter (fun n => (rowEqual.cells n).isSome)).length = 2 := by
    simp [rowEqual]
  constructor
  · have h := C9_theorem 3 ["A", "B", "C"] rowEqual "A" rfl rfl
    rw [h, hk]
    norm_num [rowEqual, round2, rhe]
  · have h := C9_theorem 3 ["A", "B", "C"] rowEqual "C" rfl rfl
    rw [h, hk]
    simp [rowEqual]

/-! The rounding reconciler. -/

/-- C1 (amended): for an expense row all of whose computed shares are
nonnegative, if the reconciler completes and the (spec-modelled) validator
finds no error in the row, the owed shares sum to the amount to within
0.01, whichever member the random draw selects. -/
theorem C1_theorem (b : Batch) (row : ExpenseRow) (choice : ℕ) (s : ComputedRow)
    (hnd : b.memberNames.Nodup)
    (hnn : ∀ m ∈ b.memberNames, 0 ≤ (computeRow b row).owed m)
    (hrun : assignRoundingDiff b.memberNames (computeRow b row) choice = some s)
    (hvalid : rowErrorCount b row s = 0) :
    |(b.memberNames.map s.owed).sum - row.amount| ≤ 1/100 := by
  set r := computeRow b row with hr
  have hamt : r.amount = row.amount := rfl
  have hres : ¬(2/100 ≤ |(b.memberNames.map s.owed).sum - row.amount|) := by
    intro hge
    unfold rowErrorCount at hvalid
    rw [if_pos hge] at hvalid
    omega
  have hsum : ((shareOwedCols r b.memberNames).map r.owed).sum
      = (b.memberNames.map r.owed).sum := sum_shareOwedCols r b.memberNames hnn
  have hd : (b.memberNames.map r.owed).sum - row.amount = rdDiff b.memberNames r := by
    unfold rdDiff
    rw [hsum, hamt]
  by_cases h : 0 < |rdDiff b.memberNames r| ∧ |rdDiff b.memberNames r| < 2/100
  · cases hcols : shareOwedCols r b.memberNames with
    | nil =>
      rw [assignRoundingDiff_none b.memberNames r choice h hcols] at hrun
      cases hrun
    | cons c cs =>
      rw [assignRoundingDiff_correct b.memberNames r choice h c cs hcols] at hrun
      simp only [Option.some.injEq] at hrun
      have howed : s.owed = fun m =>
          if m = (c :: cs).getD (choice % (c :: cs).length) c then
            r.owed m - round2 (rdDiff b.memberNames r)
          else r.owed m := by
        rw [← hrun]
      have hpmem : (c :: cs).getD (choice % (c :: cs).length) c ∈
          shareOwedCols r b.memberNames := by
        rw [hcols]
        exact getD_mem_of_lt _ _ _ (Nat.mod_lt _ (Nat.succ_pos _))
      have hpmns := (mem_shareOwedCols r b.memberNames _ hpmem).1
      have hupd : (b.memberNames.map s.owed).sum
          = (b.memberNames.map r.owed).sum - round2 (rdDiff b.memberNames r) := by
        rw [howed]
        exact sum_map_update r.owed (round2 (rdDiff b.memberNames r)) _ b.memberNames hnd hpmns
      have hgoal : (b.memberNames.map s.owed).sum - row.amount
          = rdDiff b.memberNames r - round2 (rdDiff b.memberNames r) := by
        rw [hupd]
        linarith [hd]
      rw [hgoal]
      have h1 := abs_round2_sub_le (rdDiff b.memberNames r)
      calc |rdDiff b.memberNames r - round2 (rdDiff b.memberNames r)|
          = |round2 (rdDiff b.memberNames r) - rdDiff b.memberNames r| := abs_sub_comm _ _
        _ ≤ 1/200 := h1
        _ ≤ 1/100 := by norm_num
  · rw [assignRoundingDiff_eq_self b.memberNames r choice h] at hrun
    simp only [Option.some.injEq] at hrun
    subst hrun
    rw [hd]
    push_neg at h
    by_cases h0 : |rdDiff b.memberNames r| = 0
    · rw [h0]
      norm_num
    · have hpos : 0 < |rdDiff b.memberNames r| :=
        lt_of_le_of_ne (abs_nonneg _) fun he => h0 he.symm
      exfalso
      apply hres
      rw [hd]
      exact h hpos

/-- C4 (amended): the reconciler's difference is taken over the members
with positive share owed; nothing changes when it is zero or at least
0.02; otherwise the rounded difference is subtracted from exactly one
member drawn among the positive-share columns (every such column is a
possible draw), and the reconciler crashes when there is none. -/
theorem C4_theorem (mns : List String) (r : ComputedRow) (choice : ℕ) :
    (rdDiff mns r = 0 → assignRoundingDiff mns r choice = some r) ∧
    (2/100 ≤ |rdDiff mns r| → assignRoundingDiff mns r choice = some r) ∧
    (0 < |rdDiff mns r| → |rdDiff mns r| < 2/100 → shareOwedCols r mns = [] →
      assignRoundingDiff mns r choice = none) ∧
    (0 < |rdDiff mns r| → |rdDiff mns r| < 2/100 → shareOwedCols r mns ≠ [] →
      ∃ p ∈ shareOwedCols r mns, assignRoundingDiff mns r choice =
        some { r with owed := fun m =>
                if m = p then r.owed m - round2 (rdDiff mns r) else r.owed m }) ∧
    (0 < |rdDiff mns r| → |rdDiff mns r| < 2/100 →
      ∀ p ∈ shareOwedCols r mns, ∃ ch, assignRoundingDiff mns r ch =
        some { r with owed := fun m =>
                if m = p then r.owed m - round2 (rdDiff mns r) else r.owed m }) := by
  refine ⟨?_, ?_, ?_, ?_, ?_⟩
  · intro h0
    apply assignRoundingDiff_eq_self
    rw [h0]
    norm_num
  · intro hge
    apply assignRoundingDiff_eq_self
    rintro ⟨-, hlt⟩
    exact absurd hge (not_le.mpr hlt)
  · intro h1 h2 hcols
    exact assignRoundingDiff_none mns r choice ⟨h1, h2⟩ hcols
  · intro h1 h2 hne
    cases hcols : shareOwedCols r mns with
    | nil => exact absurd hcols hne
    | cons c cs =>
      refine ⟨(c :: cs).getD (choice % (c :: cs).length) c, ?_, ?_⟩
      · exact getD_mem_of_lt _ _ _ (Nat.mod_lt _ (Nat.succ_pos _))
      · exact assignRoundingDiff_correct mns r choice ⟨h1, h2⟩ c cs hcols
  · intro h1 h2 p hp
    cases hcols : shareOwedCols r mns with
    | nil => rw [hcols] at hp; cases hp
    | cons c cs =>
      rw [hcols] at hp
      have hidx : (c :: cs).indexOf p < (c :: cs).length := List.indexOf_lt_length.mpr hp
      refine ⟨(c :: cs).indexOf p, ?_⟩
      have hmod : (c :: cs).indexOf p % (c :: cs).length = (c :: cs).indexOf p :=
        Nat.mod_eq_of_lt hidx
      have hget : (c :: cs).getD ((c :: cs).indexOf p % (c :: cs).length) c = p := by
        rw [hmod]
        exact getD_indexOf (c :: cs) c p hp
      rw [assignRoundingDiff_correct mns r ((c :: cs).indexOf p) ⟨h1, h2⟩ c cs hcols, hget]

/-- C10: whenever the reconciler completes on a row, it changes at most one
member's share owed, that member had a strictly positive share owed (never
zero or negative), and the amount, the paid shares and all other fields are
untouched. -/
theorem C10_theorem (mns : List String) (r : ComputedRow) (choice : ℕ) (s : ComputedRow)
    (hrun : assignRoundingDiff mns r choice = some s) :
    s.description = r.description ∧ s.date = r.date ∧ s.amount = r.amount ∧
      s.currency = r.currency ∧ s.paid = r.paid ∧
      (∀ m, s.owed m ≠ r.owed m → m ∈ mns ∧ 0 < r.owed m) ∧
      (∀ m1 m2, s.owed m1 ≠ r.owed m1 → s.owed m2 ≠ r.owed m2 → m1 = m2) := by
  by_cases h : 0 < |rdDiff mns r| ∧ |rdDiff mns r| < 2/100
  · cases hcols : shareOwedCols r mns with
    | nil =>
      rw [assignRoundingDiff_none mns r choice h hcols] at hrun
      cases hrun
    | cons c cs =>
      rw [assignRoundingDiff_correct mns r choice h c cs hcols] at hrun
      simp only [Option.some.injEq] at hrun
      subst hrun
      have hpmem : (c :: cs).getD (choice % (c :: cs).length) c ∈ shareOwedCols r mns := by
        rw [hcols]
        exact getD_mem_of_lt _ _ _ (Nat.mod_lt _ (Nat.succ_pos _))
      have hpp := mem_shareOwedCols r mns _ hpmem
      refine ⟨rfl, rfl, rfl, rfl, rfl, ?_, ?_⟩
      · intro m hm
        by_cases hmp : m = (c :: cs).getD (choice % (c :: cs).length) c
        · rw [hmp]
          exact hpp
        · exact absurd (if_neg hmp) hm
      · intro m1 m2 h1 h2
        by_cases h1p : m1 = (c :: cs).getD (choice % (c :: cs).length) c
        · by_cases h2p : m2 = (c :: cs).getD (choice % (c :: cs).length) c
          · rw [h1p, h2p]
          · exact absurd (if_neg h2p) h2
        · exact absurd (if_neg h1p) h1
  · rw [assignRoundingDiff_eq_self mns r choice h] at hrun
    simp only [Option.some.injEq] at hrun
    subst hrun
    exact ⟨rfl, rfl, rfl, rfl, rfl, fun m hm => absurd rfl hm, fun m1 m2 h1 _ => absurd rfl h1⟩

/-! Error handling, payer shares and the commit gate. -/

/-- C2 (amended): with `splitAllEqual` false and an unrecognized split type,
the share calculator silently returns 0 for a member with a present cell
(it raises nothing), and the batch is reported invalid by the
(spec-modelled) validator. -/
theorem C2_theorem (b : Batch) (rng : ℕ → ℕ) (rep : Report) (row : ExpenseRow)
    (m : String) (v : ℚ)
    (hrow : row ∈ b.rows) (hae : row.allEqual = false)
    (hsh : row.splitType ≠ "share") (ham : row.splitType ≠ "amount")
    (heq : row.splitType ≠ "equal") (hcell : row.cells m = some v)
    (hrun : batch_upload_process b rng = some rep) :
    getShareOwed b.groupSize b.memberNames row m = 0 ∧ rep.fileValid = false := by
  constructor
  · unfold getShareOwed
    rw [hcell, hae]
    simp [hsh, ham, heq]
  · have hbad : ¬splitTypeRecognized row := by
      unfold splitTypeRecognized
      simp [hae, hsh, ham, heq]
    unfold batch_upload_process at hrun
    cases hmic : members_in_cols b.members b.memberNames with
    | none => rw [hmic] at hrun; cases hrun
    | some l =>
      rw [hmic] at hrun
      cases hpr : processRows b rng b.rows 0 with
      | none => rw [hpr] at hrun; cases hrun
      | some crs =>
        rw [hpr] at hrun
        simp only [Option.some.injEq] at hrun
        have hlen := processRows_length b rng b.rows 0 crs hpr
        have hge := batchErrorCount_ge_one b row hbad b.rows crs hrow hlen
        rw [← hrun]
        exact decide_eq_false (by omega)

/-- C5 (amended): every member column other than the payer gets share paid
0; when the payer's name appears among the (distinct) member columns and the
amount is nonzero, exactly one member column carries a nonzero share paid,
namely the payer's, and it equals the amount. -/
theorem C5_theorem (mns : List String) (row : ExpenseRow)
    (hmem : row.paidBy ∈ mns) (hamt : row.amount ≠ 0) :
    getSharePaid row row.paidBy = row.amount ∧
      (∀ m ∈ mns, m ≠ row.paidBy → getSharePaid row m = 0) ∧
      ∃! m, m ∈ mns ∧ getSharePaid row m ≠ 0 := by
  have hpay : getSharePaid row row.paidBy = row.amount := if_pos rfl
  have hzero : ∀ m, m ≠ row.paidBy → getSharePaid row m = 0 := by
    intro m hm
    exact if_neg fun he => hm he.symm
  refine ⟨hpay, fun m _ hm => hzero m hm, row.paidBy, ⟨hmem, ?_⟩, ?_⟩
  · rw [hpay]
    exact hamt
  · rintro y ⟨-, hy⟩
    by_contra hne
    exact hy (hzero y hne)

/-- C6 (amended): the member resolver silently binds a column to the FIRST
Members row whose name matches, never failing on duplicates further down
the table. -/
theorem C6_theorem (pre post : List Member) (mem : Member) (name : String)
    (hname : mem.name = name) (hpre : ∀ x ∈ pre, x.name ≠ name) :
    resolveMember (pre ++ mem :: post) name = some mem.id := by
  induction pre with
  | nil => simp [resolveMember, hname]
  | cons a pre ih =>
    have ha : a.name ≠ name := hpre a (List.mem_cons_self a pre)
    simp only [List.cons_append, resolveMember]
    rw [if_neg ha]
    exact ih fun x hx => hpre x (List.mem_cons_of_mem a hx)

/-- C7: the batch is committed (upload record created, expenses persisted)
iff the validator's error count is 0; `file_valid` equals that same test,
and on any error nothing at all is committed. -/
theorem C7_theorem (b : Batch) (rng : ℕ → ℕ) (rep : Report)
    (hrun : batch_upload_process b rng = some rep) :
    (rep.fileValid = true ↔ rep.errorCount = 0) ∧
      (rep.uploadCreated = true ↔ rep.errorCount = 0) ∧
      rep.committed = (if rep.errorCount = 0 then rep.expenses else []) := by
  unfold batch_upload_process at hrun
  cases hmic : members_in_cols b.members b.memberNames with
  | none => rw [hmic] at hrun; cases hrun
  | some l =>
    rw [hmic] at hrun
    cases hpr : processRows b rng b.rows 0 with
    | none => rw [hpr] at hrun; cases hrun
    | some crs =>
      rw [hpr] at hrun
      simp only [Option.some.injEq] at hrun
      subst hrun
      refine ⟨?_, ?_, ?_⟩ <;> simp [decide_eq_true_iff]

/-! Evaluation kit for concrete batches. -/

/-- A row passing all six (spec-modelled) validator rules has no error. -/
theorem rowErrorCount_eq_zero (b : Batch) (row : ExpenseRow) (cr : ComputedRow)
    (h1 : ¬row.amount ≤ 0) (h2 : splitTypeRecognized row)
    (h3 : ¬2/100 ≤ |(b.memberNames.map cr.owed).sum - row.amount|)
    (h4 : row.paidBy ∈ b.members.map Member.name)
    (h5 : ∀ n ∈ b.memberNames, n ∈ b.members.map Member.name)
    (h6 : ¬row.currency = "") :
    rowErrorCount b row cr = 0 := by
  unfold rowErrorCount
  rw [if_neg h1, if_pos h2, if_neg h3, if_pos h4, if_pos h5, if_neg h6]

/-- Error count of a one-row batch. -/
theorem batchErrorCount_single (b : Batch) (row : ExpenseRow) (cr : ComputedRow) :
    batchErrorCount b [row] [cr] = rowErrorCount b row cr := by
  show rowErrorCount b row cr + batchErrorCount b [] [] = rowErrorCount b row cr
  show rowErrorCount b row cr + 0 = rowErrorCount b row cr
  omega

/-- Processing a one-row batch. -/
theorem processRows_single (b : Batch) (rng : ℕ → ℕ) (row : ExpenseRow) (cr : ComputedRow)
    (h : assignRoundingDiff b.memberNames (computeRow b row) (rng 0) = some cr) :
    processRows b rng [row] 0 = some [cr] := by
  simp only [processRows]
  rw [h]

/-- The upload report of a one-row batch. -/
theorem bup_single (b : Batch) (rng : ℕ → ℕ) (row : ExpenseRow) (cr : ComputedRow)
    (l : List (String × ℤ)) (hb : b.rows = [row])
    (hmic : members_in_cols b.members b.memberNames = some l)
    (hpr : assignRoundingDiff b.memberNames (computeRow b row) (rng 0) = some cr) :
    batch_upload_process b rng =
      some { expenses := [cr]
             errorCount := rowErrorCount b row cr
             fileValid := decide (rowErrorCount b row cr = 0)
             uploadCreated := decide (rowErrorCount b row cr = 0)
             committed := if rowErrorCount b row cr = 0 then [cr] else [] } := by
  unfold batch_upload_process
  rw [hmic, hb, processRows_single b rng row cr hpr]
  show some (Report.mk [cr] (batchErrorCount b [row] [cr])
        (decide (batchErrorCount b [row] [cr] = 0))
        (decide (batchErrorCount b [row] [cr] = 0))
        (if batchErrorCount b [row] [cr] = 0 then [cr] else [])) =
      some (Report.mk [cr] (rowErrorCount b row cr)
        (decide (rowErrorCount b row cr = 0))
        (decide (rowErrorCount b row cr = 0))
        (if rowErrorCount b row cr = 0 then [cr] else []))
  rw [batchErrorCount_single]

/-! Concrete evaluations on the benign batch `bW`. -/

/-- Share owed by A in `rowW`. -/
theorem crW_owed_A : crW.owed "A" = 4 := by
  simp [crW, computeRow, bW, getShareOwed, rowW]

/-- Share owed by B in `rowW`. -/
theorem crW_owed_B : crW.owed "B" = 6 := by
  simp [crW, computeRow, bW, getShareOwed, rowW]

/-- Both member columns of `rowW` carry positive shares. -/
theorem shareOwedCols_crW : shareOwedCols crW ["A", "B"] = ["A", "B"] := by
  simp [shareOwedCols, crW_owed_A, crW_owed_B,
    show (0:ℚ) < 4 from by norm_num, show (0:ℚ) < 6 from by norm_num]

/-- The reconciler difference of `rowW` is zero. -/
theorem rdDiff_crW : rdDiff bW.memberNames crW = 0 := by
  have hmns : bW.memberNames = ["A", "B"] := rfl
  unfold rdDiff
  rw [hmns, shareOwedCols_crW, List.map_cons, List.map_cons, List.map_nil,
    List.sum_cons, List.sum_cons, List.sum_nil, crW_owed_A, crW_owed_B,
    show crW.amount = 10 from rfl]
  norm_num

/-- The reconciler leaves `rowW` unchanged. -/
theorem assignRoundingDiff_crW : assignRoundingDiff bW.memberNames crW 0 = some crW := by
  apply assignRoundingDiff_eq_self
  rw [rdDiff_crW]
  norm_num

/-- The validator accepts `rowW`. -/
theorem rowErrorCount_crW : rowErrorCount bW rowW crW = 0 := by
  apply rowErrorCount_eq_zero
  · norm_num [rowW]
  · unfold splitTypeRecognized
    right; right; left; rfl
  · have hmns : bW.memberNames = ["A", "B"] := rfl
    rw [hmns, List.map_cons, List.map_cons, List.map_nil, List.sum_cons, List.sum_cons,
      List.sum_nil, crW_owed_A, crW_owed_B, show rowW.amount = 10 from rfl]
    norm_num
  · decide
  · decide
  · decide

/-- C1 witness: on the benign row `rowW` (shares 4 + 6 against amount 10)
all hypotheses hold and the reconciled row meets the sum bound. -/
theorem C1_witness : |(bW.memberNames.map crW.owed).sum - rowW.amount| ≤ 1/100 := by
  apply C1_theorem bW rowW 0 crW
  · decide
  · intro m hm
    have hAB : m = "A" ∨ m = "B" := by simpa [bW] using hm
    rcases hAB with rfl | rfl
    · show (0:ℚ) ≤ crW.owed "A"
      rw [crW_owed_A]
      norm_num
    · show (0:ℚ) ≤ crW.owed "B"
      rw [crW_owed_B]
      norm_num
  · exact assignRoundingDiff_crW
  · exact rowErrorCount_crW

/-- C4 witness: on `rowW` the difference is zero, so the reconciler returns
the row unchanged. -/
theorem C4_witness : assignRoundingDiff bW.memberNames crW 0 = some crW :=
  (C4_theorem bW.memberNames crW 0).1 rdDiff_crW

/-- C5 witness: on `rowW` the payer column A carries the amount and B
carries 0. -/
theorem C5_witness :
    getSharePaid rowW rowW.paidBy = rowW.amount ∧ getSharePaid rowW "B" = 0 := by
  have h := C5_theorem ["A", "B"] rowW (by decide) (by norm_num [rowW])
  exact ⟨h.1, h.2.1 "B" (by decide) (by decide)⟩

/-- C7 witness: the valid one-row batch `bW` is committed in full, with
`file_valid` set. -/
theorem C7_witness :
    (Report.mk [crW] 0 true true [crW]).fileValid = true ↔
      (Report.mk [crW] 0 true true [crW]).errorCount = 0 := by
  have h := bup_single bW rng0 rowW crW [("A", 1), ("B", 2)] rfl (by decide)
    assignRoundingDiff_crW
  rw [rowErrorCount_crW] at h
  have hrun : batch_upload_process bW rng0 = some (Report.mk [crW] 0 true true [crW]) := by
    simpa using h
  exact (C7_theorem bW rng0 _ hrun).1

/-! Concrete evaluations on the unknown-split-type batch `bBogus`. -/

/-- The calculator falls through to 0 on the split type "bogus". -/
theorem crBogus_owed_A : crBogus.owed "A" = 0 := by
  simp [crBogus, computeRow, bBogus, getShareOwed, rowBogus]

/-- No column of `rowBogus` carries a positive share. -/
theorem shareOwedCols_crBogus : shareOwedCols crBogus ["A"] = [] := by
  simp [shareOwedCols, crBogus_owed_A]

/-- The reconciler difference of `rowBogus` is minus the amount. -/
theorem rdDiff_crBogus : rdDiff bBogus.memberNames crBogus = -10 := by
  have hmns : bBogus.memberNames = ["A"] := rfl
  unfold rdDiff
  rw [hmns, shareOwedCols_crBogus, List.map_nil, List.sum_nil,
    show crBogus.amount = 10 from rfl]
  norm_num

/-- The reconciler leaves `rowBogus` unchanged (difference too large). -/
theorem assignRoundingDiff_crBogus :
    assignRoundingDiff bBogus.memberNames crBogus 0 = some crBogus := by
  apply assignRoundingDiff_eq_self
  rw [rdDiff_crBogus]
  norm_num

/-- The validator counts two errors on `rowBogus`: unknown split type and a
sum residual of 10. -/
theorem rowErrorCount_crBogus : rowErrorCount bBogus rowBogus crBogus = 2 := by
  have h1 : ¬rowBogus.amount ≤ 0 := by norm_num [rowBogus]
  have h2 : ¬splitTypeRecognized rowBogus := by
    unfold splitTypeRecognized
    simp [rowBogus]
  have h3 : 2/100 ≤ |(bBogus.memberNames.map crBogus.owed).sum - rowBogus.amount| := by
    have hmns : bBogus.memberNames = ["A"] := rfl
    rw [hmns, List.map_cons, List.map_nil, List.sum_cons, List.sum_nil, crBogus_owed_A,
      show rowBogus.amount = 10 from rfl]
    norm_num
  have h4 : rowBogus.paidBy ∈ bBogus.members.map Member.name := by decide
  have h5 : ∀ n ∈ bBogus.memberNames, n ∈ bBogus.members.map Member.name := by decide
  have h6 : ¬rowBogus.currency = "" := by decide
  unfold rowErrorCount
  rw [if_neg h1, if_neg h2, if_pos h3, if_pos h4, if_pos h5, if_neg h6]

/-- C2 counterexample: on a row with split type "bogus" and a present cell,
the share calculator does not fail — it silently returns 0. -/
theorem C2_counterexample :
    rowBogus.allEqual = false ∧ rowBogus.splitType = "bogus" ∧
      rowBogus.cells "A" = some 50 ∧ getShareOwed 1 ["A"] rowBogus "A" = 0 := by
  refine ⟨rfl, rfl, by simp [rowBogus], ?_⟩
  unfold getShareOwed
  simp [rowBogus]

/-- C2 witness: processing the one-row batch `bBogus` returns share owed 0
for A and an invalid report. -/
theorem C2_witness :
    getShareOwed bBogus.groupSize bBogus.memberNames rowBogus "A" = 0 ∧
      (Report.mk [crBogus] 2 false false []).fileValid = false := by
  have h := bup_single bBogus rng0 rowBogus crBogus [("A", 1)] rfl (by decide)
    assignRoundingDiff_crBogus
  rw [rowErrorCount_crBogus] at h
  have hrun : batch_upload_process bBogus rng0 =
      some (Report.mk [crBogus] 2 false false []) := by
    simpa using h
  exact C2_theorem bBogus rng0 _ rowBogus "A" 50 (List.mem_cons_self rowBogus []) rfl
    (by decide) (by decide) (by decide) (by simp [rowBogus]) hrun

/-! Concrete evaluations on `b1` (negative sub-cent cell). -/

/-- Share owed by A in `row1`: the negative cell is copied verbatim. -/
theorem cr1_owed_A : cr1.owed "A" = -3/200 := by
  simp [cr1, computeRow, b1, getShareOwed, row1]

/-- Share owed by B in `row1`. -/
theorem cr1_owed_B : cr1.owed "B" = 10 := by
  simp [cr1, computeRow, b1, getShareOwed, row1]

/-- Only B's share is positive in `row1`. -/
theorem shareOwedCols_cr1 : shareOwedCols cr1 ["A", "B"] = ["B"] := by
  simp [shareOwedCols, cr1_owed_A, cr1_owed_B,
    show ¬((0:ℚ) < -3/200) from by norm_num, show (0:ℚ) < 10 from by norm_num]

/-- The reconciler difference of `row1` is zero: the negative share is not
counted. -/
theorem rdDiff_cr1 : rdDiff b1.memberNames cr1 = 0 := by
  have hmns : b1.memberNames = ["A", "B"] := rfl
  unfold rdDiff
  rw [hmns, shareOwedCols_cr1, List.map_cons, List.map_nil, List.sum_cons, List.sum_nil,
    cr1_owed_B, show cr1.amount = 10 from rfl]
  norm_num

/-- The reconciler leaves `row1` unchanged. -/
theorem assignRoundingDiff_cr1 : assignRoundingDiff b1.memberNames cr1 0 = some cr1 := by
  apply assignRoundingDiff_eq_self
  rw [rdDiff_cr1]
  norm_num

/-- The owed shares of `row1` sum to 9.985. -/
theorem sum_owed_cr1 : (b1.memberNames.map cr1.owed).sum = 1997/200 := by
  have hmns : b1.memberNames = ["A", "B"] := rfl
  rw [hmns, List.map_cons, List.map_cons, List.map_nil, List.sum_cons, List.sum_cons,
    List.sum_nil, cr1_owed_A, cr1_owed_B]
  norm_num

/-- The residual of `row1` after reconciliation is 0.015. -/
theorem abs_resid_cr1 : |(b1.memberNames.map cr1.owed).sum - row1.amount| = 3/200 := by
  rw [sum_owed_cr1, show row1.amount = 10 from rfl,
    show (1997:ℚ)/200 - 10 = -(3/200) from by norm_num, abs_neg,
    abs_of_pos (by norm_num : (0:ℚ) < 3/200)]

/-- The validator accepts `row1` (its residual 0.015 is below 0.02). -/
theorem rowErrorCount_cr1 : rowErrorCount b1 row1 cr1 = 0 := by
  apply rowErrorCount_eq_zero
  · norm_num [row1]
  · unfold splitTypeRecognized
    right; right; left; rfl
  · rw [abs_resid_cr1]
    norm_num
  · decide
  · decide
  · decide

/-- C1 counterexample: on `row1` the reconciler finishes (changing nothing),
the (spec-modelled) validator reports no error, yet the owed shares sum to
9.985 against amount 10 — off by 0.015 > 0.01. -/
theorem C1_counterexample :
    assignRoundingDiff b1.memberNames (computeRow b1 row1) 0 = some cr1 ∧
      rowErrorCount b1 row1 cr1 = 0 ∧
      1/100 < |(b1.memberNames.map cr1.owed).sum - row1.amount| := by
  refine ⟨assignRoundingDiff_cr1, rowErrorCount_cr1, ?_⟩
  rw [abs_resid_cr1]
  norm_num

/-! Concrete evaluations on `b4` (negative cell perturbing the difference). -/

/-- C4 counterexample: on `row4` the sum of ALL shares equals the amount
(so the claim predicts no change), yet the reconciler — whose difference
ignores A's negative share — subtracts 0.01 from B. -/
theorem C4_counterexample :
    (b4.memberNames.map cr4.owed).sum - cr4.amount = 0 ∧
      (assignRoundingDiff b4.memberNames cr4 0).map (fun s => s.owed "B") =
        some (999/100) ∧
      cr4.owed "B" = 10 := by
  have hA : cr4.owed "A" = -1/100 := by simp [cr4, computeRow, b4, getShareOwed, row4]
  have hB : cr4.owed "B" = 10 := by simp [cr4, computeRow, b4, getShareOwed, row4]
  have hmns : b4.memberNames = ["A", "B"] := rfl
  have hamt : cr4.amount = 999/100 := rfl
  have hcols : shareOwedCols cr4 b4.memberNames = "B" :: [] := by
    rw [hmns]
    simp [shareOwedCols, hA, hB, show ¬((0:ℚ) < -1/100) from by norm_num,
      show (0:ℚ) < 10 from by norm_num]
  have hd : rdDiff b4.memberNames cr4 = 1/100 := by
    unfold rdDiff
    rw [hcols, List.map_cons, List.map_nil, List.sum_cons, List.sum_nil, hB, hamt]
    norm_num
  refine ⟨?_, ?_, hB⟩
  · rw [hmns, List.map_cons, List.map_cons, List.map_nil, List.sum_cons, List.sum_cons,
      List.sum_nil, hA, hB, hamt]
    norm_num
  · have hcond : 0 < |rdDiff b4.memberNames cr4| ∧ |rdDiff b4.memberNames cr4| < 2/100 := by
      rw [hd, abs_of_pos (by norm_num : (0:ℚ) < 1/100)]
      norm_num
    rw [assignRoundingDiff_correct b4.memberNames cr4 0 hcond "B" [] hcols]
    simp [hd, hB]
    norm_num [round2, rhe]

/-! Concrete evaluations on `b5` (payer without a member column). -/

/-- C5 counterexample: `row5` passes the (spec-modelled) validator and has a
nonzero amount, yet NO member column carries a nonzero share paid, because
the payer C has no column. -/
theorem C5_counterexample :
    rowErrorCount b5 row5 cr5 = 0 ∧ row5.amount ≠ 0 ∧
      getSharePaid row5 "A" = 0 ∧ getSharePaid row5 "B" = 0 := by
  have hA : cr5.owed "A" = 5/2 := by simp [cr5, computeRow, b5, getShareOwed, row5]
  have hB : cr5.owed "B" = 5/2 := by simp [cr5, computeRow, b5, getShareOwed, row5]
  refine ⟨?_, by norm_num [row5], by simp [getSharePaid, row5], by simp [getSharePaid, row5]⟩
  apply rowErrorCount_eq_zero
  · norm_num [row5]
  · unfold splitTypeRecognized
    right; right; left; rfl
  · have hmns : b5.memberNames = ["A", "B"] := rfl
    rw [hmns, List.map_cons, List.map_cons, List.map_nil, List.sum_cons, List.sum_cons,
      List.sum_nil, hA, hB, show row5.amount = 5 from rfl]
    norm_num
  · decide
  · decide
  · decide

/-! The member resolver on duplicated names. -/

/-- C6 counterexample: with two Members rows named "Alice", the resolver
does not fail — it silently binds the column to the first row's ID 1, and
`members_in_cols` succeeds. -/
theorem C6_counterexample :
    resolveMember dupMembers "Alice" = some 1 ∧
      members_in_cols dupMembers ["Alice"] = some [("Alice", 1)] := by
  constructor
  · decide
  · decide

/-- C6 witness: the first "Alice" row wins even past a non-matching head and
with a duplicate behind it. -/
theorem C6_witness :
    resolveMember ([⟨"Bob", 3⟩] ++ ⟨"Alice", 1⟩ :: [⟨"Alice", 7⟩]) "Alice" = some 1 :=
  C6_theorem [⟨"Bob", 3⟩] [⟨"Alice", 7⟩] ⟨"Alice", 1⟩ "Alice" rfl (by decide)

/-! Concrete evaluations on `b10` (a correction actually fires). -/

/-- Share owed by A in `row10`. -/
theorem cr10_owed_A : cr10.owed "A" = 3333/100 := by
  simp [cr10, computeRow, b10, getShareOwed, row10]

/-- Share owed by B in `row10`. -/
theorem cr10_owed_B : cr10.owed "B" = 3333/100 := by
  simp [cr10, computeRow, b10, getShareOwed, row10]

/-- Share owed by C in `row10`. -/
theorem cr10_owed_C : cr10.owed "C" = 3333/100 := by
  simp [cr10, computeRow, b10, getShareOwed, row10]

/-- All three columns of `row10` carry positive shares. -/
theorem shareOwedCols_cr10 : shareOwedCols cr10 ["A", "B", "C"] = ["A", "B", "C"] := by
  simp [shareOwedCols, cr10_owed_A, cr10_owed_B, cr10_owed_C,
    show (0:ℚ) < 3333/100 from by norm_num]

/-- The reconciler difference of `row10` is -0.01. -/
theorem rdDiff_cr10 : rdDiff b10.memberNames cr10 = -1/100 := by
  have hmns : b10.memberNames = ["A", "B", "C"] := rfl
  unfold rdDiff
  rw [hmns, shareOwedCols_cr10, List.map_cons, List.map_cons, List.map_cons, List.map_nil,
    List.sum_cons, List.sum_cons, List.sum_cons, List.sum_nil, cr10_owed_A, cr10_owed_B,
    cr10_owed_C, show cr10.amount = 100 from rfl]
  norm_num

/-- Under draw 0 the reconciler corrects `row10` into `r10s`. -/
theorem assignRoundingDiff_cr10 :
    assignRoundingDiff b10.memberNames cr10 0 = some r10s := by
  have hcond : 0 < |rdDiff b10.memberNames cr10| ∧ |rdDiff b10.memberNames cr10| < 2/100 := by
    have habs : |rdDiff b10.memberNames cr10| = 1/100 := by
      rw [rdDiff_cr10, show (-1/100 : ℚ) = -(1/100) from by norm_num, abs_neg,
        abs_of_pos (by norm_num : (0:ℚ) < 1/100)]
    rw [habs]
    norm_num
  have hcols : shareOwedCols cr10 b10.memberNames = "A" :: ["B", "C"] := by
    rw [show b10.memberNames = ["A", "B", "C"] from rfl]
    exact shareOwedCols_cr10
  have heq := assignRoundingDiff_correct b10.memberNames cr10 0 hcond "A" ["B", "C"] hcols
  rw [heq, show r10s = (assignRoundingDiff b10.memberNames cr10 0).getD default from rfl,
    heq]
  rfl

/-- C10 witness: on `row10`, where a correction fires, the paid shares and
the amount are untouched. -/
theorem C10_witness : r10s.paid = cr10.paid ∧ r10s.amount = cr10.amount := by
  have h := C10_theorem b10.memberNames cr10 0 r10s assignRoundingDiff_cr10
  exact ⟨h.2.2.2.2.1, h.2.2.1⟩

end SplitwiseTools
